import Mathlib

/-!
Verification development for the vs-exprtools repository (files
vsexprtools/exprop.py and vsexprtools/funcs.py).

The code builds flat postfix expression strings from typed building blocks.
We embed the builders shallowly: expression fragments become an inductive
tree of leaves (strings, numbers, the Python None), the builders become
Lean functions over that tree, and fallible builders return Except.
Machinery that lives outside the reviewed sources (the host primitives
get_lowest_value / get_peak_value / get_neutral_value, the variable
catalog EXPR_VARS, plane normalisation, the extended-engine availability
flag) is modelled from the specification and marked as such.
-/

namespace VSExpr

/-- Color range classification of a clip: limited (studio) or full range. -/
inductive CRange where
  | limited
  | full
deriving DecidableEq, Repr

/-- Clip metadata the token-resolution code reads: integer bit depth and the
clip's own declared color range.  (All claims concern integer-sample clips,
so the sample type is fixed to integer.) -/
structure VClip where
  bits : ℕ
  range : CRange
deriving DecidableEq, Repr

/-- Modelled from the spec: host primitive (vstools.get_lowest_value), the
"lowest value for this clip given chroma-flag and range" resolution
primitive.  A call without an explicit range resolves against the clip's own
declared range (rng = none).  For integer formats the limited-range lowest
value is 16 scaled by bit depth, the full-range lowest value is 0. -/
def get_lowest_value (clip : VClip) (_chroma : Bool) (rng : Option CRange) : ℚ :=
  match rng.getD clip.range with
  | CRange.limited => 16 * 2 ^ (clip.bits - 8)
  | CRange.full => 0

/-- Modelled from the spec: host primitive (vstools.get_peak_value), the
"peak value for this clip given chroma-flag and range" resolution primitive.
A call without an explicit range resolves against the clip's own declared
range.  For integer formats the limited-range peak is 235 (luma) or 240
(chroma) scaled by bit depth, the full-range peak is 2 ^ bits - 1. -/
def get_peak_value (clip : VClip) (chroma : Bool) (rng : Option CRange) : ℚ :=
  match rng.getD clip.range with
  | CRange.limited => (if chroma then 240 else 235) * 2 ^ (clip.bits - 8)
  | CRange.full => 2 ^ clip.bits - 1

/-- Modelled from the spec: host primitive (vstools.get_neutral_value), the
"neutral (mid) value for this clip given chroma-flag" resolution primitive.
For integer formats this is 2 ^ (bits - 1). -/
def get_neutral_value (clip : VClip) (_chroma : Bool) : ℚ :=
  2 ^ (clip.bits - 1)

/-- The eighteen range/level tokens of ExprToken (exprop.py lines 23-41). -/
inductive ExprToken where
  | LumaMin
  | ChromaMin
  | Lumamax
  | Chromamax
  | RangeHalf
  | RangeSize
  | RangeMin
  | LumaRangeMin
  | ChromaRangeMin
  | RangeMax
  | LumaRangeMax
  | ChromaRangeMax
  | RangeInMin
  | LumaRangeInMin
  | ChromaRangeInMin
  | RangeInMax
  | LumaRangeInMax
  | ChromaRangeInMax
deriving DecidableEq, Repr

/-- Canonical textual code of each token (the enum string values). -/
def ExprToken.value : ExprToken → String
  | ExprToken.LumaMin => "ymin"
  | ExprToken.ChromaMin => "cmin"
  | ExprToken.Lumamax => "ymax"
  | ExprToken.Chromamax => "cmax"
  | ExprToken.RangeHalf => "range_half"
  | ExprToken.RangeSize => "range_size"
  | ExprToken.RangeMin => "range_min"
  | ExprToken.LumaRangeMin => "yrange_min"
  | ExprToken.ChromaRangeMin => "crange_min"
  | ExprToken.RangeMax => "range_max"
  | ExprToken.LumaRangeMax => "yrange_max"
  | ExprToken.ChromaRangeMax => "crange_max"
  | ExprToken.RangeInMin => "range_in_min"
  | ExprToken.LumaRangeInMin => "yrange_in_min"
  | ExprToken.ChromaRangeInMin => "crange_in_min"
  | ExprToken.RangeInMax => "range_in_max"
  | ExprToken.LumaRangeInMax => "yrange_in_max"
  | ExprToken.ChromaRangeInMax => "crange_in_max"

/-- Embedding of ExprToken.get_value (exprop.py lines 47-100).  The chroma
flag and the explicit input-range classification are the method's parameters
(chroma defaults to False, range_in to LIMITED at the call sites).  A range
argument of (some r) models an explicit range passed to the host primitive,
none models the primitive's default, the clip's own declared range. -/
def ExprToken.get_value (t : ExprToken) (clip : VClip) (chroma : Bool) (range_in : CRange) : ℚ :=
  match t with
  | ExprToken.LumaMin => get_lowest_value clip false (some CRange.limited)
  | ExprToken.ChromaMin => get_lowest_value clip true (some CRange.limited)
  | ExprToken.Lumamax => get_peak_value clip false (some CRange.limited)
  | ExprToken.Chromamax => get_peak_value clip true (some CRange.limited)
  | ExprToken.RangeHalf => get_neutral_value clip chroma
  | ExprToken.RangeSize =>
      let val := get_peak_value clip false none
      val + (1 - (if val ≤ 1 then 1 else 0))
  | ExprToken.RangeMin => get_lowest_value clip chroma none
  | ExprToken.LumaRangeMin => get_lowest_value clip false none
  | ExprToken.ChromaRangeMin => get_lowest_value clip true none
  | ExprToken.RangeMax => get_peak_value clip chroma none
  | ExprToken.LumaRangeMax => get_peak_value clip false none
  | ExprToken.ChromaRangeMax => get_peak_value clip true none
  | ExprToken.RangeInMin => get_lowest_value clip chroma (some range_in)
  | ExprToken.LumaRangeInMin => get_lowest_value clip false (some range_in)
  | ExprToken.ChromaRangeInMin => get_lowest_value clip true (some range_in)
  | ExprToken.RangeInMax => get_peak_value clip chroma (some range_in)
  | ExprToken.LumaRangeInMax => get_peak_value clip false (some range_in)
  | ExprToken.ChromaRangeInMax => get_peak_value clip true (some range_in)

/-- Leaf element of an expression-fragment tree: a string (operator code,
token code, variable name or raw text), a numeric literal, or the Python
None value. -/
inductive Leaf where
  | str : String → Leaf
  | num : ℚ → Leaf
  | null : Leaf
deriving DecidableEq, Repr

/-- Arbitrarily nested expression fragment (the ExprList intermediate
representation: a list whose elements are leaves or further lists). -/
inductive Frag where
  | leaf : Leaf → Frag
  | node : List Frag → Frag

mutual

/-- Modelled from the spec: the flatten support utility, recursively
expanding nested fragment lists into the flat ordered sequence of leaves. -/
def Frag.flatten : Frag → List Leaf
  | Frag.leaf l => [l]
  | Frag.node fs => flattenList fs

/-- Flattening of a list of fragments, preserving order. -/
def flattenList : List Frag → List Leaf
  | [] => []
  | f :: fs => f.flatten ++ flattenList fs

end

/-- Embedding of ExprOp.clamp (exprop.py lines 202-210).  The first argument
models the process-wide aka_expr_available flag the method reads; mn and mx
are the bounds (token or numeric leaf), c the optional fragment to clamp. -/
def ExprOp.clamp (avail : Bool) (mn mx : Leaf) (c : Leaf) : List Frag :=
  if avail then
    [Frag.leaf c, Frag.leaf mn, Frag.leaf mx, Frag.leaf (Leaf.str "clamp")]
  else
    [Frag.leaf c, Frag.leaf mn, Frag.leaf (Leaf.str "max"), Frag.leaf mx, Frag.leaf (Leaf.str "max")]

/-- Modelled from the spec: the EXPR_VARS variable catalog of the util
module — the fixed ordered catalog of single-character clip variable names,
led by x, y, z and continuing with the remaining letters in order. -/
def EXPR_VARS : List String :=
  ["x", "y", "z", "a", "b", "c", "d", "e", "f", "g", "h", "i", "j",
   "k", "l", "m", "n", "o", "p", "q", "r", "s", "t", "u", "v", "w"]

/-- Modelled from the spec: an ExprVars value, a contiguous index range
into the variable catalog, supporting length, iteration and indexing. -/
structure ExprVars where
  start : ℕ
  stop : ℕ
deriving DecidableEq, Repr

/-- Number of variables in the range (Python len). -/
def ExprVars.len (v : ExprVars) : ℕ := v.stop - v.start

/-- The variable-name strings the range iterates over, drawn from the
catalog.  (Indices past the catalog end yield the empty string in this
model; the Python code would fail there, and every theorem that iterates a
range assumes it lies inside the catalog.) -/
def ExprVars.vars (v : ExprVars) : List String :=
  (List.range' v.start v.len).map (fun i => EXPR_VARS.getD i "")

/-- Error-attribution tags for the shared plane-parsing helper. -/
inductive FuncName where
  | rmse
  | mae
deriving DecidableEq, Repr

/-- Embedding of ExprOp._parse_planes (exprop.py lines 296-310): when the
second range is absent it defaults to the next contiguous block of equal
length after the first; unequal lengths raise a CustomIndexError carrying
the supplied function tag. -/
def ExprOp._parse_planes (planesa : ExprVars) (planesb : Option ExprVars) (func : FuncName) :
    Except (String × FuncName) (ExprVars × ExprVars) :=
  let pb : ExprVars :=
    match planesb with
    | none => ExprVars.mk planesa.stop (planesa.stop + planesa.len)
    | some b => b
  if planesa.len ≠ pb.len then
    Except.error ("Both clips must have an equal amount of planes!", func)
  else
    Except.ok (planesa, pb)

/-- Per-pair fragment appended by ExprOp.rmse: [a, b, SUB, DUP, MUL, SQRT]. -/
def rmseTerm (a b : String) : Frag :=
  Frag.node [Frag.leaf (Leaf.str a), Frag.leaf (Leaf.str b), Frag.leaf (Leaf.str "-"),
    Frag.leaf (Leaf.str "dup"), Frag.leaf (Leaf.str "*"), Frag.leaf (Leaf.str "sqrt")]

/-- Per-pair fragment appended by ExprOp.mae: [a, b, SUB, ABS]. -/
def maeTerm (a b : String) : Frag :=
  Frag.node [Frag.leaf (Leaf.str a), Frag.leaf (Leaf.str b), Frag.leaf (Leaf.str "-"),
    Frag.leaf (Leaf.str "abs")]

/-- Embedding of ExprOp.rmse (exprop.py lines 312-323): per plane pair it
appends [a, b, SUB, DUP, MUL, SQRT], then appends MAX repeated mlength
(list length minus one) times as one nested element. -/
def ExprOp.rmse (planesa : ExprVars) (planesb : Option ExprVars) :
    Except (String × FuncName) (List Frag) :=
  match ExprOp._parse_planes planesa planesb FuncName.rmse with
  | Except.error e => Except.error e
  | Except.ok (pa, pb) =>
    let terms := ((pa.vars).zip (pb.vars)).map (fun ab => rmseTerm ab.1 ab.2)
    Except.ok (terms ++ [Frag.node (List.replicate (terms.length - 1) (Frag.leaf (Leaf.str "max")))])

/-- Embedding of ExprOp.mae (exprop.py lines 325-335): per plane pair it
appends [a, b, SUB, ABS], then appends MAX repeated mlength times.  The
source passes cls.rmse, not cls.mae, as the error-attribution tag to
_parse_planes (line 327). -/
def ExprOp.mae (planesa : ExprVars) (planesb : Option ExprVars) :
    Except (String × FuncName) (List Frag) :=
  match ExprOp._parse_planes planesa planesb FuncName.rmse with
  | Except.error e => Except.error e
  | Except.ok (pa, pb) =>
    let terms := ((pa.vars).zip (pb.vars)).map (fun ab => maeTerm ab.1 ab.2)
    Except.ok (terms ++ [Frag.node (List.replicate (terms.length - 1) (Frag.leaf (Leaf.str "max")))])

/-- Whitespace characters removed by the Python str.strip default. -/
def isPySpace (c : Char) : Bool :=
  c = ' ' ∨ c = '\t' ∨ c = '\n' ∨ c = '\r' ∨ c = '\x0b' ∨ c = '\x0c'

/-- Embedding of the str(x).strip() step: remove leading and trailing
whitespace. -/
def pyStrip (s : String) : String :=
  (((s.toList.dropWhile isPySpace).reverse.dropWhile isPySpace).reverse).asString

/-- Stringification of a leaf (Python str).  Numeric rendering is a model
choice; no claim depends on the textual form of a number. -/
def Leaf.toText : Leaf → String
  | Leaf.str s => s
  | Leaf.num q => toString q
  | Leaf.null => "None"

/-- The filter of funcs.expr line 60: keep x when x is not None and
x is not the empty string. -/
def keepElem : Leaf → Bool
  | Leaf.null => false
  | Leaf.str s => s ≠ ""
  | Leaf.num _ => true

/-- Embedding of the expression-text assembly of funcs.expr (lines 58-62):
flatten, drop None and empty entries, stringify and strip each remaining
entry, join with single spaces. -/
def exprString (e : Frag) : String :=
  " ".intercalate (((e.flatten).filter keepElem).map (fun l => pyStrip l.toText))

/-- Duplicate removal keeping first occurrences. -/
def dedupAux : List ℕ → List ℕ → List ℕ
  | [], _ => []
  | x :: xs, seen => if x ∈ seen then dedupAux xs seen else x :: dedupAux xs (x :: seen)

/-- Modelled from the spec: the normalise_planes support utility — resolve
an absent/collection plane selector against the clip's plane count into a
concrete ordered duplicate-free list of valid indices, defaulting to all
planes when absent.  (A scalar selector is the singleton list.) -/
def normalisePlanes (nPlanes : ℕ) (planes : Option (List ℕ)) : List ℕ :=
  match planes with
  | none => List.range nPlanes
  | some ps => dedupAux (ps.filter (fun p => p < nPlanes)) []

/-- Embedding of funcs.expr (lines 50-68) up to the engine call: the
per-plane expression-text sequence handed to the engine — the assembled
text at each selected plane index, the empty string elsewhere. -/
def expr (nPlanes : ℕ) (planes : Option (List ℕ)) (e : Frag) : List String :=
  let s := exprString e
  let planesl := normalisePlanes nPlanes planes
  (List.range nPlanes).map (fun i => if i ∈ planesl then s else "")

/-- A per-clip prefix or suffix argument to combine: absent, a scalar
string/tuple (one repeating unit), or any other sequence of values. -/
inductive FfixArg where
  | noarg
  | unit (u : Frag)
  | seq (l : List Frag)

/-- The Python list-repetition step ffix * max(1, ceil(n / len(ffix))).
(For an empty base list the Python code would raise a ZeroDivisionError;
this model returns the empty list, and no theorem exercises that case.) -/
def cycleTo (base : List Frag) (n : ℕ) : List Frag :=
  List.flatten (List.replicate (max 1 ((n + base.length - 1) / base.length)) base)

/-- Embedding of _combine_norm__ix (funcs.py lines 23-29): None broadcasts
to n empty strings; a str or tuple becomes the single-element list [ffix];
any other sequence is taken as is; the list is then repeated
max(1, ceil(n / len)) times. -/
def combineNormIx : FfixArg → ℕ → List Frag
  | FfixArg.noarg, n => List.replicate n (Frag.leaf (Leaf.str ""))
  | FfixArg.unit u, n => cycleTo [u] n
  | FfixArg.seq l, n => cycleTo l n

/-- Python zip of three lists: truncates to the shortest. -/
def zip3 {α β γ : Type} : List α → List β → List γ → List (α × β × γ)
  | a :: as, b :: bs, c :: cs => (a, b, c) :: zip3 as bs cs
  | _, _, _ => []

/-- Embedding of the per-clip argument assembly of funcs.combine (lines
39-43): normalize prefixes and suffixes, truncate each of the three arrays
to n_clips + 1 entries, and zip prefix, variable name and suffix. -/
def combineArgs (pfx sfx : FfixArg) (n : ℕ) : List (Frag × String × Frag) :=
  let prefixes := combineNormIx pfx n
  let suffixes := combineNormIx sfx n
  zip3 (prefixes.take (n + 1)) (EXPR_VARS.take (n + 1)) (suffixes.take (n + 1))

/-- A possibly-absent fragment (Python None becomes the None leaf, which
the assembly filter drops). -/
def optFrag : Option Frag → Frag
  | none => Frag.leaf Leaf.null
  | some f => f

/-- Embedding of funcs.combine (lines 32-47): the nested fragment
[expr_prefix, args, operators, expr_suffix] handed to expr, where args is
the zipped per-clip (prefix, variable, suffix) sequence and operators is
the operator repeated (n_clips - 1) times. -/
def combineFrag (n : ℕ) (op : String) (pfx sfx : FfixArg) (exprPfx exprSfx : Option Frag) : Frag :=
  Frag.node [
    optFrag exprPfx,
    Frag.node ((combineArgs pfx sfx n).map
      (fun x => Frag.node [x.1, Frag.leaf (Leaf.str x.2.1), x.2.2])),
    Frag.node (List.replicate (n - 1) (Frag.leaf (Leaf.str op))),
    optFrag exprSfx]

/-- Embedding of funcs.combine composed with funcs.expr: the per-plane
expression-text sequence produced for n clips. -/
def combine (nClips nPlanes : ℕ) (planes : Option (List ℕ)) (op : String)
    (pfx sfx : FfixArg) (exprPfx exprSfx : Option Frag) : List String :=
  expr nPlanes planes (combineFrag nClips op pfx sfx exprPfx exprSfx)

/-- Connectivity mode of a spatial matrix (vstools ConvMode). -/
inductive ConvMode where
  | square
  | horizontal
  | vertical
deriving DecidableEq, Repr

/-- The coordinate list range(-radius, radius + 1) as integers. -/
def intRange (radius : ℕ) : List ℤ :=
  (List.range (2 * radius + 1)).map (fun (i : ℕ) => (i : ℤ) - radius)

/-- The relative-pixel reference operator REL_PIX applied to a variable and
offsets: var[x,y]. -/
def relPix (var : String) (x y : ℤ) : String :=
  var ++ "[" ++ toString x ++ "," ++ toString y ++ "]"

/-- Embedding of the coordinate enumeration of ExprOp.matrix (exprop.py
lines 216-228): a single horizontal or vertical line for the line modes,
and the full grid with rows outer and columns inner for square mode. -/
def matrixCoords (radius : ℕ) (mode : ConvMode) : List (ℤ × ℤ) :=
  if mode ≠ ConvMode.square then
    (intRange radius).map (fun xy => if mode = ConvMode.horizontal then (xy, 0) else (0, xy))
  else
    (intRange radius).flatMap (fun y => (intRange radius).map (fun x => (x, y)))

/-- Embedding of ExprOp.matrix (exprop.py lines 212-235): enumerate the
coordinates, drop those in the exclusion list, emit the bare variable at
the center and a relative-pixel reference elsewhere. -/
def ExprOp.matrix (var : String) (radius : ℕ) (mode : ConvMode) (exclude : List (ℤ × ℤ)) :
    List String :=
  (matrixCoords radius mode).filterMap (fun c =>
    if c ∈ exclude then none
    else some (if c.1 = 0 ∧ c.2 = 0 then var else relPix var c.1 c.2))

/-- Specification-worded row-major square enumeration: rows outer and
columns inner, both from -radius to radius inclusive.  Stated from the spec
text of section 4.1 to be compared with the source-derived coordinate
enumeration. -/
def rowMajorCoords (radius : ℕ) : List (ℤ × ℤ) :=
  (List.range (2 * radius + 1)).flatMap (fun (yi : ℕ) =>
    (List.range (2 * radius + 1)).map (fun (xi : ℕ) => ((xi : ℤ) - radius, (yi : ℤ) - radius)))

/-- The divisor argument of ExprOp.convolution: a Python bool (True = auto
sum of weights, False = no division) or an explicit number. -/
inductive DivArg where
  | boolean (b : Bool)
  | num (q : ℚ)
deriving DecidableEq, Repr

/-- Embedding of ExprOp.convolution (exprop.py lines 237-294) over the
flattened weight list.  Validity checks first (even length, fewer than 3
items, non-square length in square mode), then the weighted neighbor
terms, the ADD fold, and the optional premultiply / divisor / bias /
saturate / multiply / clamp steps in source order.  The avail argument
models the aka_expr_available flag consulted by the final clamp step. -/
def ExprOp.convolution (var : String) (matrixW : List ℚ) (bias : Option ℚ) (divisor : DivArg)
    (saturate : Bool) (mode : ConvMode) (premultiply : Option ℚ) (multiply : Option ℚ)
    (clampV : Bool) (avail : Bool) : Except String (List Frag) :=
  let conv_len := matrixW.length
  if conv_len % 2 = 0 then
    Except.error "ExprOp.convolution: convolution length must be odd!"
  else if conv_len < 3 then
    Except.error "ExprOp.convolution: you must pass at least 3 convolution items!"
  else if mode = ConvMode.square ∧ conv_len ≠ Nat.sqrt conv_len ^ 2 then
    Except.error
      "ExprOp.convolution: with square mode, convolution must represent a square (radius*radius n items)!"
  else
    let radius := if mode ≠ ConvMode.square then conv_len / 2 else Nat.sqrt conv_len / 2
    let rel_pixels := ExprOp.matrix var radius mode []
    let output0 := (rel_pixels.zip matrixW).filterMap (fun pw =>
      if pw.2 ≠ 0 then
        some (if pw.2 = 1 then Frag.leaf (Leaf.str pw.1)
          else Frag.node [Frag.leaf (Leaf.str pw.1), Frag.leaf (Leaf.num pw.2),
            Frag.leaf (Leaf.str "*")])
      else none)
    let output1 := output0 ++ List.replicate (output0.length - 1) (Frag.leaf (Leaf.str "+"))
    let output2 := match premultiply with
      | some q => output1 ++ [Frag.leaf (Leaf.num q), Frag.leaf (Leaf.str "*")]
      | none => output1
    let output3 := match divisor with
      | DivArg.boolean false => output2
      | DivArg.boolean true =>
        let d := matrixW.sum
        if d ≠ 0 ∧ d ≠ 1 then output2 ++ [Frag.leaf (Leaf.num d), Frag.leaf (Leaf.str "/")]
        else output2
      | DivArg.num d =>
        if d ≠ 0 ∧ d ≠ 1 then output2 ++ [Frag.leaf (Leaf.num d), Frag.leaf (Leaf.str "/")]
        else output2
    let output4 := match bias with
      | some q => output3 ++ [Frag.leaf (Leaf.num q), Frag.leaf (Leaf.str "+")]
      | none => output3
    let output5 := if saturate then output4 else output4 ++ [Frag.leaf (Leaf.str "abs")]
    let output6 := match multiply with
      | some q => output5 ++ [Frag.leaf (Leaf.num q), Frag.leaf (Leaf.str "*")]
      | none => output5
    let output7 := if clampV then
        output6 ++ [Frag.node (ExprOp.clamp avail (Leaf.str "range_min") (Leaf.str "range_max")
          (Leaf.str ""))]
      else output6
    Except.ok output7

/-- The token stream a list of fragments contributes to the final
expression text: flatten, drop absent and empty entries, stringify and
strip (the elements ' '.join would connect). -/
def fragsTokens (fs : List Frag) : List String :=
  ((flattenList fs).filter keepElem).map (fun l => pyStrip l.toText)

/-- A token that is none of the operator codes appearing in the
difference-metric fragments; the postfix evaluator treats such a token as a
variable reference. -/
def varTok (t : String) : Prop :=
  t ∉ (["-", "*", "dup", "sqrt", "abs", "max"] : List String)

instance (t : String) : Decidable (varTok t) :=
  inferInstanceAs (Decidable (t ∉ (["-", "*", "dup", "sqrt", "abs", "max"] : List String)))

/-- A variable token that survives the assembly pipeline unchanged:
nonempty, strip-invariant, and not an operator code. -/
def cleanVar (v : String) : Prop :=
  v ≠ "" ∧ pyStrip v = v ∧ varTok v

instance (v : String) : Decidable (cleanVar v) :=
  inferInstanceAs (Decidable (v ≠ "" ∧ pyStrip v = v ∧ varTok v))

/-- Binary stack operation: pop the top value a and the value b below it,
push f b a; underflow yields none. -/
def bin2 {R : Type} (s : List R) (f : R → R → R) : Option (List R) :=
  match s with
  | a :: b :: rest => some (f b a :: rest)
  | _ => none

/-- Unary stack operation: replace the top value by f of it; underflow
yields none. -/
def un1 {R : Type} (s : List R) (f : R → R) : Option (List R) :=
  match s with
  | a :: rest => some (f a :: rest)
  | _ => none

/-- The DUP stack operation: duplicate the top value. -/
def dup1 {R : Type} (s : List R) : Option (List R) :=
  match s with
  | a :: rest => some (a :: a :: rest)
  | _ => none

/-- One step of the exact real-number postfix (stack machine) evaluation
the expression engine specifies: SUB, MUL, DUP, SQRT, ABS and MAX act on
the stack, any other token pushes the sample value the environment assigns
to it. -/
noncomputable def rpnStep (env : String → ℝ) (t : String) (s : List ℝ) : Option (List ℝ) :=
  if t = "-" then bin2 s (fun b a => b - a)
  else if t = "*" then bin2 s (fun b a => b * a)
  else if t = "dup" then dup1 s
  else if t = "sqrt" then un1 s Real.sqrt
  else if t = "abs" then un1 s (fun a => |a|)
  else if t = "max" then bin2 s (fun b a => max b a)
  else some (env t :: s)

/-- Exact real-number postfix evaluation of a token stream on a stack. -/
noncomputable def evalRPN (env : String → ℝ) : List String → List ℝ → Option (List ℝ)
  | [], s => some s
  | t :: ts, s =>
    match rpnStep env t s with
    | some s2 => evalRPN env ts s2
    | none => none

/-- Specification-worded restatement of the fragment assembly: flatten the
structure, then in one pass drop entries that are absent or empty and
stringify-and-trim the remaining ones, joining with single spaces.  Stated
from the spec text of section 4.4 to be compared with the source-derived
exprString. -/
def assembleSpec (e : Frag) : String :=
  " ".intercalate
    ((e.flatten).filterMap (fun l => if keepElem l then some (pyStrip l.toText) else none))

/-- Claim C1: for every minimum bound A, maximum bound B and fragment C,
when the extended engine is unavailable ExprOp.clamp returns the fragment
sequence [C, A, MAX, B, MAX], and when it is available it returns
[C, A, B, CLAMP]. -/
theorem claim_C1_clamp (A B C : Leaf) :
    ExprOp.clamp false A B C =
      [Frag.leaf C, Frag.leaf A, Frag.leaf (Leaf.str "max"), Frag.leaf B, Frag.leaf (Leaf.str "max")] ∧
    ExprOp.clamp true A B C =
      [Frag.leaf C, Frag.leaf A, Frag.leaf B, Frag.leaf (Leaf.str "clamp")] := by
  exact ⟨rfl, rfl⟩

/-- Claim C9: the tokens LumaMin, ChromaMin, Lumamax and Chromamax resolve
against the limited range regardless of the clip's own declared color range
(an 8-bit clip yields 16 and 235 for luma whether it declares limited or
full range), whereas RangeMin and RangeMax resolve against the clip's own
declared range (yielding 16 and 235 for an 8-bit limited-range clip, and
0 and 255 for an 8-bit full-range clip). -/
theorem claim_C9_tokens (r : CRange) (chroma : Bool) (ri : CRange) :
    ExprToken.get_value ExprToken.LumaMin ⟨8, r⟩ chroma ri = 16 ∧
    ExprToken.get_value ExprToken.Lumamax ⟨8, r⟩ chroma ri = 235 ∧
    ExprToken.get_value ExprToken.ChromaMin ⟨8, r⟩ chroma ri = 16 ∧
    ExprToken.get_value ExprToken.Chromamax ⟨8, r⟩ chroma ri = 240 ∧
    (∀ (clip : VClip),
      ExprToken.get_value ExprToken.RangeMin clip chroma ri =
        get_lowest_value clip chroma (some clip.range) ∧
      ExprToken.get_value ExprToken.RangeMax clip chroma ri =
        get_peak_value clip chroma (some clip.range)) ∧
    ExprToken.get_value ExprToken.RangeMin ⟨8, CRange.limited⟩ false ri = 16 ∧
    ExprToken.get_value ExprToken.RangeMax ⟨8, CRange.limited⟩ false ri = 235 ∧
    ExprToken.get_value ExprToken.RangeMin ⟨8, CRange.full⟩ false ri = 0 ∧
    ExprToken.get_value ExprToken.RangeMax ⟨8, CRange.full⟩ false ri = 255 := by
  refine ⟨?_, ?_, ?_, ?_, ?_, ?_, ?_, ?_, ?_⟩
  · simp [ExprToken.get_value, get_lowest_value]
  · simp [ExprToken.get_value, get_peak_value]
  · simp [ExprToken.get_value, get_lowest_value]
  · simp [ExprToken.get_value, get_peak_value]
  · intro clip
    constructor
    · simp [ExprToken.get_value, get_lowest_value, Option.getD]
    · simp [ExprToken.get_value, get_peak_value, Option.getD]
  · simp [ExprToken.get_value, get_lowest_value]
  · simp [ExprToken.get_value, get_peak_value]
  · simp [ExprToken.get_value, get_lowest_value]
  · norm_num [ExprToken.get_value, get_peak_value]

theorem zip3_length {α β γ : Type} (as : List α) (bs : List β) (cs : List γ) :
    (zip3 as bs cs).length = min as.length (min bs.length cs.length) := by
  induction as generalizing bs cs with
  | nil => cases bs <;> cases cs <;> simp [zip3]
  | cons a as ih =>
    cases bs with
    | nil => simp [zip3]
    | cons b bs =>
      cases cs with
      | nil => simp [zip3]
      | cons c cs => simp [zip3, ih]; omega

theorem zip3_getElem? {α β γ : Type} (as : List α) (bs : List β) (cs : List γ)
    (i : ℕ) (a : α) (b : β) (c : γ)
    (ha : as[i]? = some a) (hb : bs[i]? = some b) (hc : cs[i]? = some c) :
    (zip3 as bs cs)[i]? = some (a, b, c) := by
  induction as generalizing bs cs i with
  | nil => simp at ha
  | cons x as ih =>
    cases bs with
    | nil => simp at hb
    | cons y bs =>
      cases cs with
      | nil => simp at hc
      | cons z cs =>
        cases i with
        | zero =>
          simp at ha hb hc
          simp [zip3, ha, hb, hc]
        | succ i =>
          simp at ha hb hc
          simpa [zip3] using ih bs cs i ha hb hc

theorem flatten_replicate_length {α : Type} (m : ℕ) (l : List α) :
    (List.flatten (List.replicate m l)).length = m * l.length := by
  induction m with
  | zero => simp
  | succ m ih =>
    rw [List.replicate_succ, List.flatten_cons, List.length_append, ih, Nat.succ_mul]
    omega

theorem flatten_replicate_getElem? {α : Type} (m : ℕ) (l : List α) (i : ℕ)
    (h : i < m * l.length) :
    (List.flatten (List.replicate m l))[i]? = l[i % l.length]? := by
  induction m generalizing i with
  | zero => simp at h
  | succ m ih =>
    rw [List.replicate_succ, List.flatten_cons]
    by_cases hi : i < l.length
    · rw [List.getElem?_append_left hi, Nat.mod_eq_of_lt hi]
    · have hlen : l.length ≤ i := Nat.le_of_not_lt hi
      rw [List.getElem?_append_right hlen]
      have h2 : i - l.length < m * l.length := by
        have hs : (m + 1) * l.length = m * l.length + l.length := by ring
        omega
      rw [ih (i - l.length) h2]
      congr 1
      conv_rhs => rw [show i = (i - l.length) + l.length by omega]
      rw [Nat.add_mod_right]

theorem le_cycleTo_length (l : List Frag) (n : ℕ) (hl : l ≠ []) :
    n ≤ (cycleTo l n).length := by
  have hk : 0 < l.length := List.length_pos.mpr hl
  unfold cycleTo
  rw [flatten_replicate_length]
  have h5 : n ≤ l.length * ((n + l.length - 1) / l.length) := by
    have h1 := Nat.div_add_mod (n + l.length - 1) l.length
    have h2 : (n + l.length - 1) % l.length < l.length := Nat.mod_lt _ hk
    generalize ht : l.length * ((n + l.length - 1) / l.length) = t at h1 ⊢
    omega
  have h6 : l.length * ((n + l.length - 1) / l.length) ≤
      l.length * max 1 ((n + l.length - 1) / l.length) :=
    Nat.mul_le_mul_left _ (le_max_right _ _)
  calc n ≤ l.length * ((n + l.length - 1) / l.length) := h5
    _ ≤ l.length * max 1 ((n + l.length - 1) / l.length) := h6
    _ = max 1 ((n + l.length - 1) / l.length) * l.length := Nat.mul_comm _ _

theorem filterMap_if {α β : Type} (p : α → Bool) (f : α → β) (l : List α) :
    l.filterMap (fun a => if p a then some (f a) else none) = (l.filter p).map f := by
  induction l with
  | nil => rfl
  | cons a l ih =>
    by_cases h : p a <;> simp [h, ih]

/-- Claim C3 counterexample: combining 3 clips with operator ADD and no
prefixes or suffixes does not produce the interleaved text "x y + z +"
the claim states: the operators come after all three variables. -/
theorem claim_C3_counterexample :
    exprString (combineFrag 3 "+" FfixArg.noarg FfixArg.noarg none none) ≠ "x y + z +" := by
  decide

/-- Claim C3 (amended): combining 3 clips with operator ADD and no prefixes
or suffixes produces exactly the expression text "x y z + +" — the clip
variables in order followed by the operator appended (clip_count - 1)
times, rather than the operator interleaved between consecutive
variables.  For a single-plane clip the per-plane sequence is that text. -/
theorem claim_C3_amended :
    exprString (combineFrag 3 "+" FfixArg.noarg FfixArg.noarg none none) = "x y z + +" ∧
    combine 3 1 none "+" FfixArg.noarg FfixArg.noarg none none = ["x y z + +"] := by
  constructor
  · decide
  · decide

/-- Claim C4 counterexample: the per-clip entries are not always truncated
to exactly n: with 5 clips and two-element prefix and suffix lists, both
cycled arrays have 6 entries, the truncation bound is n + 1 = 6, and the
zip produces 6 per-clip entries, not 5. -/
theorem claim_C4_counterexample :
    (combineArgs
      (FfixArg.seq [Frag.leaf (Leaf.str "p0"), Frag.leaf (Leaf.str "p1")])
      (FfixArg.seq [Frag.leaf (Leaf.str "s0"), Frag.leaf (Leaf.str "s1")]) 5).length ≠ 5 := by
  decide

/-- Claim C4 (amended): a scalar string or tuple is broadcast so that all n
clips receive it, and any other sequence is cycled; the three zipped arrays
are each truncated to at most n + 1 entries (not n), so the entry count is
at most n + 1 and equals n whenever the other side is absent — in
particular an absent prefix with a scalar suffix yields exactly n entries
all carrying the scalar, an absent prefix with a cycled suffix list yields
exactly n entries whose i-th suffix is the list element at index i modulo
the list length, and a 2-element suffix list over 5 clips yields the 5
entries [s0, s1, s0, s1, s0]. -/
theorem claim_C4_amended (n : ℕ) (u : Frag) (l : List Frag) (s0 s1 : Frag)
    (h1 : 1 ≤ n) (h26 : n ≤ 26) (hl : l ≠ []) :
    (∀ pfx sfx : FfixArg, (combineArgs pfx sfx n).length ≤ n + 1) ∧
    (combineArgs FfixArg.noarg (FfixArg.unit u) n).length = n ∧
    (∀ i, i < n →
      ((combineArgs FfixArg.noarg (FfixArg.unit u) n).map (fun x => x.2.2))[i]? = some u) ∧
    (combineArgs FfixArg.noarg (FfixArg.seq l) n).length = n ∧
    (∀ i, i < n →
      ((combineArgs FfixArg.noarg (FfixArg.seq l) n).map (fun x => x.2.2))[i]? =
        l[i % l.length]?) ∧
    (combineArgs FfixArg.noarg (FfixArg.seq [s0, s1]) 5).map (fun x => x.2.2) =
      [s0, s1, s0, s1, s0] := by
  have hvarlen : EXPR_VARS.length = 26 := by decide
  refine ⟨?_, ?_, ?_, ?_, ?_, ?_⟩
  · intro pfx sfx
    simp [combineArgs, zip3_length, List.length_take, hvarlen]
  · have hmax : max 1 ((n + 1 - 1) / 1) = n := by omega
    simp [combineArgs, zip3_length, List.length_take, combineNormIx, cycleTo,
      flatten_replicate_length, hvarlen, hmax]
    omega
  · intro i hi
    have hv : i < (EXPR_VARS.take (n + 1)).length := by
      simp [List.length_take, hvarlen]; omega
    have hveq : (EXPR_VARS.take (n + 1))[i]? = some ((EXPR_VARS.take (n + 1))[i]) :=
      List.getElem?_eq_getElem hv
    have hp : ((combineNormIx FfixArg.noarg n).take (n + 1))[i]? =
        some (Frag.leaf (Leaf.str "")) := by
      simp [combineNormIx, List.getElem?_take, hi, List.getElem?_replicate]
    have hscyc : i < (max 1 ((n + [u].length - 1) / [u].length)) * [u].length := by
      simp; omega
    have hs : ((combineNormIx (FfixArg.unit u) n).take (n + 1))[i]? = some u := by
      rw [combineNormIx, cycleTo, List.getElem?_take, if_pos (by omega),
        flatten_replicate_getElem? _ _ _ hscyc]
      simp [Nat.mod_one]
    rw [List.getElem?_map, combineArgs,
      zip3_getElem? _ _ _ i _ _ _ hp hveq hs]
    rfl
  · have hcyc := le_cycleTo_length l n hl
    simp [combineArgs, zip3_length, List.length_take, combineNormIx, hvarlen]
    have : (cycleTo l n).length = (combineNormIx (FfixArg.seq l) n).length := by
      simp [combineNormIx]
    simp [combineNormIx] at this
    omega
  · intro i hi
    have hk : 0 < l.length := List.length_pos.mpr hl
    have hv : i < (EXPR_VARS.take (n + 1)).length := by
      simp [List.length_take, hvarlen]; omega
    have hveq : (EXPR_VARS.take (n + 1))[i]? = some ((EXPR_VARS.take (n + 1))[i]) :=
      List.getElem?_eq_getElem hv
    have hp : ((combineNormIx FfixArg.noarg n).take (n + 1))[i]? =
        some (Frag.leaf (Leaf.str "")) := by
      simp [combineNormIx, List.getElem?_take, hi, List.getElem?_replicate]
    have hicyc : i < (max 1 ((n + l.length - 1) / l.length)) * l.length := by
      have := le_cycleTo_length l n hl
      rw [cycleTo, flatten_replicate_length] at this
      omega
    have hs : ((combineNormIx (FfixArg.seq l) n).take (n + 1))[i]? = l[i % l.length]? := by
      rw [combineNormIx, cycleTo, List.getElem?_take, if_pos (by omega),
        flatten_replicate_getElem? _ _ _ hicyc]
    have hlmod : i % l.length < l.length := Nat.mod_lt _ hk
    have hsv : l[i % l.length]? = some (l[i % l.length]) := List.getElem?_eq_getElem hlmod
    rw [List.getElem?_map, combineArgs,
      zip3_getElem? _ _ _ i _ _ _ hp hveq (by rw [hs, hsv]), hsv]
    rfl
  · simp [combineArgs, combineNormIx, cycleTo, zip3, EXPR_VARS]

theorem filterMap_ite {α β : Type} (p : α → Prop) [DecidablePred p] (f : α → β) (l : List α) :
    l.filterMap (fun a => if p a then some (f a) else none) =
      (l.filter (fun a => decide (p a))).map f := by
  induction l with
  | nil => rfl
  | cons a l ih => by_cases h : p a <;> simp [h, ih]

theorem filterMap_ite_not {α β : Type} (p : α → Prop) [DecidablePred p] (f : α → β) (l : List α) :
    l.filterMap (fun a => if p a then none else some (f a)) =
      (l.filter (fun a => !decide (p a))).map f := by
  induction l with
  | nil => rfl
  | cons a l ih => by_cases h : p a <;> simp [h, ih]

theorem filterMap_ifmem {β : Type} (excl : List (ℤ × ℤ)) (f : (ℤ × ℤ) → β) (l : List (ℤ × ℤ)) :
    l.filterMap (fun c => if c ∈ excl then none else some (f c)) =
      (l.filter (fun c => c ∉ excl)).map f := by
  induction l with
  | nil => rfl
  | cons a l ih => by_cases h : a ∈ excl <;> simp [h, ih]

theorem length_flatMap_const {α β : Type} (l : List α) (f : α → List β) (k : ℕ)
    (h : ∀ a ∈ l, (f a).length = k) :
    (l.flatMap f).length = l.length * k := by
  induction l with
  | nil => simp
  | cons a l ih =>
    rw [List.flatMap_cons, List.length_append, h a (by simp),
      ih (fun x hx => h x (by simp [hx])), List.length_cons]
    ring

theorem getElem?_range_flatMap {β : Type} (f : ℕ → List β) (m k i j : ℕ)
    (hlen : ∀ x, (f x).length = k) (hi : i < m) (hj : j < k) :
    ((List.range m).flatMap f)[i * k + j]? = (f i)[j]? := by
  induction i generalizing f m with
  | zero =>
    cases m with
    | zero => omega
    | succ m =>
      rw [List.range_succ_eq_map, List.flatMap_cons]
      simp only [Nat.zero_mul, Nat.zero_add]
      rw [List.getElem?_append_left (by rw [hlen]; exact hj)]
  | succ i ih =>
    cases m with
    | zero => omega
    | succ m =>
      rw [List.range_succ_eq_map, List.flatMap_cons]
      have hidx : (i + 1) * k + j = k + (i * k + j) := by ring
      rw [hidx, List.getElem?_append_right (by rw [hlen]; omega)]
      rw [hlen]
      have hsub : k + (i * k + j) - k = i * k + j := by omega
      rw [hsub, List.flatMap_map]
      exact ih (fun a => f (Nat.succ a)) m (fun x => hlen _) (by omega)

theorem rowMajorCoords_getElem? (r i j : ℕ) (hi : i ≤ 2 * r) (hj : j ≤ 2 * r) :
    (rowMajorCoords r)[i * (2 * r + 1) + j]? = some ((j : ℤ) - r, (i : ℤ) - r) := by
  rw [rowMajorCoords,
    getElem?_range_flatMap _ (2 * r + 1) (2 * r + 1) i j
      (fun x => by rw [List.length_map, List.length_range]) (by omega) (by omega),
    List.getElem?_map, List.getElem?_range (by omega)]
  rfl

theorem matrixCoords_square (r : ℕ) : matrixCoords r ConvMode.square = rowMajorCoords r := by
  rw [matrixCoords, if_neg (by simp), rowMajorCoords, intRange, List.flatMap_map]
  congr 1
  funext a
  rw [List.map_map]
  rfl

/-- Claim C7: for every variable name v and radius r, the matrix builder in
square mode enumerates the (2r+1) squared coordinates row-major (rows
outer, columns inner, each from -r to r), omits the coordinates in the
exclusion set, yields the bare variable at the center coordinate and the
relative-pixel reference v[dx,dy] elsewhere. -/
theorem claim_C7_matrix (var : String) (r : ℕ) (excl : List (ℤ × ℤ)) :
    ExprOp.matrix var r ConvMode.square excl =
      ((rowMajorCoords r).filter (fun c => c ∉ excl)).map
        (fun c => if c.1 = 0 ∧ c.2 = 0 then var else relPix var c.1 c.2) ∧
    (ExprOp.matrix var r ConvMode.square []).length = (2 * r + 1) ^ 2 ∧
    (∀ i j, i ≤ 2 * r → j ≤ 2 * r →
      (ExprOp.matrix var r ConvMode.square [])[i * (2 * r + 1) + j]? =
        some (if i = r ∧ j = r then var else relPix var ((j : ℤ) - r) ((i : ℤ) - r))) := by
  have hmap : ∀ ex : List (ℤ × ℤ), ExprOp.matrix var r ConvMode.square ex =
      ((rowMajorCoords r).filter (fun c => c ∉ ex)).map
        (fun c => if c.1 = 0 ∧ c.2 = 0 then var else relPix var c.1 c.2) := by
    intro ex
    rw [ExprOp.matrix, matrixCoords_square, filterMap_ifmem]
  have hmap0 : ExprOp.matrix var r ConvMode.square [] =
      (rowMajorCoords r).map
        (fun c => if c.1 = 0 ∧ c.2 = 0 then var else relPix var c.1 c.2) := by
    rw [hmap []]
    simp
  have hlen : (rowMajorCoords r).length = (2 * r + 1) * (2 * r + 1) := by
    rw [rowMajorCoords,
      length_flatMap_const _ _ (2 * r + 1)
        (fun a _ => by rw [List.length_map, List.length_range]),
      List.length_range]
  refine ⟨hmap excl, ?_, ?_⟩
  · rw [hmap0, List.length_map, hlen, pow_two]
  · intro i j hi hj
    rw [hmap0, List.getElem?_map, rowMajorCoords_getElem? r i j hi hj]
    simp only [Option.map_some']
    have hiff : (((j : ℤ) - r = 0) ∧ ((i : ℤ) - r = 0)) ↔ (i = r ∧ j = r) := by
      constructor <;> intro hc <;> exact ⟨by omega, by omega⟩
    rw [if_congr hiff rfl rfl]

/-- Claim C7 witness: with variable x and radius 1, the square matrix has 9
entries, the center index 4 is the bare variable and index 0 is the
relative reference to (-1,-1). -/
theorem claim_C7_matrix_witness :
    (ExprOp.matrix "x" 1 ConvMode.square []).length = 9 ∧
    (ExprOp.matrix "x" 1 ConvMode.square [])[4]? = some "x" ∧
    (ExprOp.matrix "x" 1 ConvMode.square [])[0]? = some "x[-1,-1]" := by
  have h := claim_C7_matrix "x" 1 []
  refine ⟨h.2.1, ?_, ?_⟩
  · have hc := h.2.2 1 1 (by omega) (by omega)
    rw [if_pos ⟨rfl, rfl⟩] at hc
    exact hc
  · have hc := h.2.2 0 0 (by omega) (by omega)
    rw [if_neg (by simp)] at hc
    rw [hc]
    decide

/-- Claim C5: the convolution builder fails exactly when the weight list
has even length, or length below 3, or, in square mode only, a length that
is not a perfect square; when none of these hold it returns a built
fragment list. -/
theorem claim_C5_convolution_errors (var : String) (ws : List ℚ) (bias : Option ℚ)
    (divisor : DivArg) (saturate : Bool) (mode : ConvMode) (premultiply multiply : Option ℚ)
    (clampV avail : Bool) :
    (ExprOp.convolution var ws bias divisor saturate mode premultiply multiply
        clampV avail).isOk = false ↔
      (ws.length % 2 = 0 ∨ ws.length < 3 ∨
        (mode = ConvMode.square ∧ ws.length ≠ Nat.sqrt ws.length ^ 2)) := by
  rw [ExprOp.convolution]
  split_ifs with h1 h2 h3 <;> simp [Except.isOk, Except.toBool, *]

/-- Claim C6: for every valid weight sequence the convolution builder pairs
neighbor references with weights in matrix order, omits zero-weight pairs,
emits a bare pixel reference for weight 1 and [pixel_ref, weight, MUL]
otherwise, appends ADD repeated (term_count - 1) times, and, when divisor
is not False, resolves divisor True to the sum of all original weights and
appends [divisor, DIV] exactly when the resolved divisor is neither 0 nor
1 (other options at their defaults). -/
theorem claim_C6_convolution (var : String) (ws : List ℚ) (divisor : DivArg) (mode : ConvMode)
    (avail : Bool) (h1 : ws.length % 2 = 1) (h2 : 3 ≤ ws.length)
    (h3 : mode = ConvMode.square → ws.length = Nat.sqrt ws.length ^ 2) :
    ExprOp.convolution var ws none divisor true mode none none false avail =
      Except.ok (
        (let radius := if mode = ConvMode.square then Nat.sqrt ws.length / 2 else ws.length / 2
         let terms := (((ExprOp.matrix var radius mode []).zip ws).filter
             (fun pw => pw.2 ≠ 0)).map
           (fun pw => if pw.2 = 1 then Frag.leaf (Leaf.str pw.1)
             else Frag.node [Frag.leaf (Leaf.str pw.1), Frag.leaf (Leaf.num pw.2),
               Frag.leaf (Leaf.str "*")])
         (terms ++ List.replicate (terms.length - 1) (Frag.leaf (Leaf.str "+"))) ++
           (match divisor with
            | DivArg.boolean false => []
            | DivArg.boolean true =>
              if ws.sum ≠ 0 ∧ ws.sum ≠ 1 then
                [Frag.leaf (Leaf.num ws.sum), Frag.leaf (Leaf.str "/")]
              else []
            | DivArg.num d =>
              if d ≠ 0 ∧ d ≠ 1 then [Frag.leaf (Leaf.num d), Frag.leaf (Leaf.str "/")]
              else []))) := by
  rw [ExprOp.convolution]
  rw [if_neg (by omega), if_neg (by omega), if_neg (fun hc => hc.2 (h3 hc.1))]
  have hradius : (if mode ≠ ConvMode.square then ws.length / 2 else Nat.sqrt ws.length / 2) =
      (if mode = ConvMode.square then Nat.sqrt ws.length / 2 else ws.length / 2) := by
    by_cases hm : mode = ConvMode.square <;> simp [hm]
  rw [hradius]
  cases divisor with
  | boolean b =>
    cases b with
    | false => simp [filterMap_ite_not]
    | true =>
      by_cases hd : ws.sum ≠ 0 ∧ ws.sum ≠ 1
      · simp [filterMap_ite_not, hd]
      · simp [filterMap_ite_not, hd]
  | num d =>
    by_cases hd : d ≠ 0 ∧ d ≠ 1
    · simp [filterMap_ite_not, hd]
    · simp [filterMap_ite_not, hd]

/-- Claim C6 witness: weights [1, 0, 2] in horizontal mode with automatic
divisor build the token stream with the zero-weight term dropped, the
weight-1 term bare, one ADD fold and the divisor 3 appended. -/
theorem claim_C6_convolution_witness :
    (match ExprOp.convolution "x" [1, 0, 2] none (DivArg.boolean true) true
        ConvMode.horizontal none none false false with
      | Except.ok out => fragsTokens out
      | Except.error _ => []) = ["x[-1,0]", "x[1,0]", "2", "*", "+", "3", "/"] := by
  rw [claim_C6_convolution "x" [1, 0, 2] (DivArg.boolean true) ConvMode.horizontal false
    (by decide) (by decide) (by decide)]
  have hsum : ([1, 0, 2] : List ℚ).sum = 3 := by norm_num
  rw [hsum]
  decide

/-- Claim C4 amended witness: the broadcasting facts instantiated at 5
clips with a concrete two-element suffix list. -/
theorem claim_C4_amended_witness :
    (combineArgs FfixArg.noarg
        (FfixArg.seq [Frag.leaf (Leaf.str "s0"), Frag.leaf (Leaf.str "s1")]) 5).length = 5 ∧
    (combineArgs FfixArg.noarg
        (FfixArg.seq [Frag.leaf (Leaf.str "s0"), Frag.leaf (Leaf.str "s1")]) 5).map
        (fun x => x.2.2) =
      [Frag.leaf (Leaf.str "s0"), Frag.leaf (Leaf.str "s1"), Frag.leaf (Leaf.str "s0"),
       Frag.leaf (Leaf.str "s1"), Frag.leaf (Leaf.str "s0")] := by
  have h := claim_C4_amended 5 (Frag.leaf (Leaf.str "u"))
    [Frag.leaf (Leaf.str "s0"), Frag.leaf (Leaf.str "s1")]
    (Frag.leaf (Leaf.str "s0")) (Frag.leaf (Leaf.str "s1"))
    (by omega) (by omega) (by simp)
  exact ⟨h.2.2.2.1, h.2.2.2.2.2⟩

/-- Claim C8: the expr assembly flattens the fragment structure, drops
entries that are None or the empty string, stringifies and strips each
remaining entry, joins them with single spaces, and returns a per-plane
sequence whose length is the first clip's plane count, holding the text at
each selected plane index and the empty string elsewhere. -/
theorem claim_C8_expr (e : Frag) (nPlanes : ℕ) (planes : Option (List ℕ)) :
    exprString e = assembleSpec e ∧
    (expr nPlanes planes e).length = nPlanes ∧
    ∀ i, i < nPlanes →
      (expr nPlanes planes e)[i]? =
        some (if i ∈ normalisePlanes nPlanes planes then exprString e else "") := by
  refine ⟨?_, ?_, ?_⟩
  · rw [exprString, assembleSpec, filterMap_if]
  · simp [expr]
  · intro i hi
    simp [expr, List.getElem?_map, List.getElem?_range, hi]

/-- Claim C8 witness: a 3-plane clip with only plane 1 selected gets the
assembled text at index 1 and the empty string at indices 0 and 2. -/
theorem claim_C8_expr_witness :
    (expr 3 (some [1]) (Frag.leaf (Leaf.str "x"))).length = 3 ∧
    (expr 3 (some [1]) (Frag.leaf (Leaf.str "x")))[0]? = some "" ∧
    (expr 3 (some [1]) (Frag.leaf (Leaf.str "x")))[1]? =
      some (exprString (Frag.leaf (Leaf.str "x"))) ∧
    (expr 3 (some [1]) (Frag.leaf (Leaf.str "x")))[2]? = some "" := by
  have h := claim_C8_expr (Frag.leaf (Leaf.str "x")) 3 (some [1])
  refine ⟨h.2.1, ?_, ?_, ?_⟩
  · rw [h.2.2 0 (by decide), if_neg (by decide)]
  · rw [h.2.2 1 (by decide), if_pos (by decide)]
  · rw [h.2.2 2 (by decide), if_neg (by decide)]

/-- Claim C10: when ExprOp.mae is called with two plane-variable ranges of
unequal length, the raised length-mismatch error carries ExprOp.rmse, not
ExprOp.mae, as its error-attribution tag. -/
theorem claim_C10_mae_attribution (pa pb : ExprVars) (h : pa.len ≠ pb.len) :
    ExprOp.mae pa (some pb) =
      Except.error ("Both clips must have an equal amount of planes!", FuncName.rmse) := by
  simp [ExprOp.mae, ExprOp._parse_planes, h]

/-- Claim C10 witness: a one-variable range against a two-variable range
raises the mismatch error tagged with rmse. -/
theorem claim_C10_mae_attribution_witness :
    ExprOp.mae (ExprVars.mk 0 1) (some (ExprVars.mk 1 3)) =
      Except.error ("Both clips must have an equal amount of planes!", FuncName.rmse) :=
  claim_C10_mae_attribution (ExprVars.mk 0 1) (ExprVars.mk 1 3) (by decide)

theorem flattenList_append (as bs : List Frag) :
    flattenList (as ++ bs) = flattenList as ++ flattenList bs := by
  induction as with
  | nil => rfl
  | cons f fs ih => simp [flattenList, ih]

theorem fragsTokens_append (as bs : List Frag) :
    fragsTokens (as ++ bs) = fragsTokens as ++ fragsTokens bs := by
  simp [fragsTokens, flattenList_append]

theorem flattenList_replicate_leaf (k : ℕ) (x : Leaf) :
    flattenList (List.replicate k (Frag.leaf x)) = List.replicate k x := by
  induction k with
  | zero => rfl
  | succ k ih => simp [List.replicate_succ, flattenList, Frag.flatten, ih]

theorem fragsTokens_maxfold (k : ℕ) :
    fragsTokens [Frag.node (List.replicate k (Frag.leaf (Leaf.str "max")))] =
      List.replicate k "max" := by
  have h : flattenList [Frag.node (List.replicate k (Frag.leaf (Leaf.str "max")))] =
      List.replicate k (Leaf.str "max") := by
    simp [flattenList, Frag.flatten, flattenList_replicate_leaf]
  rw [fragsTokens, h, List.filter_replicate, if_pos (by decide), List.map_replicate,
    show pyStrip (Leaf.toText (Leaf.str "max")) = "max" from by decide]

theorem fragsTokens_rmseTerm (a b : String) (ha : cleanVar a) (hb : cleanVar b) :
    fragsTokens [rmseTerm a b] = [a, b, "-", "dup", "*", "sqrt"] := by
  obtain ⟨ha1, ha2, -⟩ := ha
  obtain ⟨hb1, hb2, -⟩ := hb
  simp [fragsTokens, flattenList, Frag.flatten, rmseTerm, keepElem, Leaf.toText, ha1, hb1,
    ha2, hb2, show pyStrip "-" = "-" from by decide, show pyStrip "dup" = "dup" from by decide,
    show pyStrip "*" = "*" from by decide, show pyStrip "sqrt" = "sqrt" from by decide]

theorem fragsTokens_maeTerm (a b : String) (ha : cleanVar a) (hb : cleanVar b) :
    fragsTokens [maeTerm a b] = [a, b, "-", "abs"] := by
  obtain ⟨ha1, ha2, -⟩ := ha
  obtain ⟨hb1, hb2, -⟩ := hb
  simp [fragsTokens, flattenList, Frag.flatten, maeTerm, keepElem, Leaf.toText, ha1, hb1,
    ha2, hb2, show pyStrip "-" = "-" from by decide, show pyStrip "abs" = "abs" from by decide]

theorem tokens_rmse (pairs : List (String × String))
    (h : ∀ p ∈ pairs, cleanVar p.1 ∧ cleanVar p.2) :
    fragsTokens (pairs.map (fun ab => rmseTerm ab.1 ab.2)) =
      pairs.flatMap (fun ab => [ab.1, ab.2, "-", "dup", "*", "sqrt"]) := by
  induction pairs with
  | nil => rfl
  | cons p ps ih =>
    have hp := h p (List.mem_cons_self _ _)
    rw [List.map_cons, List.flatMap_cons,
      show rmseTerm p.1 p.2 :: List.map (fun ab => rmseTerm ab.1 ab.2) ps =
        [rmseTerm p.1 p.2] ++ List.map (fun ab => rmseTerm ab.1 ab.2) ps from rfl,
      fragsTokens_append, fragsTokens_rmseTerm p.1 p.2 hp.1 hp.2,
      ih (fun q hq => h q (List.mem_cons_of_mem _ hq))]

theorem tokens_mae (pairs : List (String × String))
    (h : ∀ p ∈ pairs, cleanVar p.1 ∧ cleanVar p.2) :
    fragsTokens (pairs.map (fun ab => maeTerm ab.1 ab.2)) =
      pairs.flatMap (fun ab => [ab.1, ab.2, "-", "abs"]) := by
  induction pairs with
  | nil => rfl
  | cons p ps ih =>
    have hp := h p (List.mem_cons_self _ _)
    rw [List.map_cons, List.flatMap_cons,
      show maeTerm p.1 p.2 :: List.map (fun ab => maeTerm ab.1 ab.2) ps =
        [maeTerm p.1 p.2] ++ List.map (fun ab => maeTerm ab.1 ab.2) ps from rfl,
      fragsTokens_append, fragsTokens_maeTerm p.1 p.2 hp.1 hp.2,
      ih (fun q hq => h q (List.mem_cons_of_mem _ hq))]

theorem exprVars_clean (v : ExprVars) (h : v.stop ≤ 26) :
    ∀ x ∈ v.vars, cleanVar x := by
  intro x hx
  rw [ExprVars.vars] at hx
  obtain ⟨i, hi, rfl⟩ := List.mem_map.mp hx
  rw [List.mem_range'] at hi
  obtain ⟨idx, hidx, rfl⟩ := hi
  simp only [ExprVars.len] at hidx
  have h26 : v.start + 1 * idx < 26 := by omega
  have hmem : EXPR_VARS.getD (v.start + 1 * idx) "" ∈ EXPR_VARS := by
    rw [List.getD_eq_getElem EXPR_VARS ""
      (by rw [show EXPR_VARS.length = 26 from by decide]; omega)]
    exact List.getElem_mem _
  have hall : ∀ w ∈ EXPR_VARS, cleanVar w := by decide
  exact hall _ hmem

theorem evalRPN_append (env : String → ℝ) (xs ys : List String) (s : List ℝ) :
    evalRPN env (xs ++ ys) s = (evalRPN env xs s).bind (fun s2 => evalRPN env ys s2) := by
  induction xs generalizing s with
  | nil => rfl
  | cons t ts ih =>
    rw [List.cons_append]
    simp only [evalRPN]
    cases h : rpnStep env t s with
    | some s2 => simp [h, ih]
    | none => simp [h]

theorem rpnStep_var (env : String → ℝ) (t : String) (s : List ℝ) (h : varTok t) :
    rpnStep env t s = some (env t :: s) := by
  simp only [varTok, List.mem_cons, List.not_mem_nil, or_false, not_or] at h
  obtain ⟨h1, h2, h3, h4, h5, h6⟩ := h
  rw [rpnStep, if_neg h1, if_neg h2, if_neg h3, if_neg h4, if_neg h5, if_neg h6]

theorem rpnStep_sub (env : String → ℝ) (a b : ℝ) (s : List ℝ) :
    rpnStep env "-" (a :: b :: s) = some ((b - a) :: s) := by
  rw [rpnStep, if_pos rfl]
  rfl

theorem rpnStep_mul (env : String → ℝ) (a b : ℝ) (s : List ℝ) :
    rpnStep env "*" (a :: b :: s) = some ((b * a) :: s) := by
  rw [rpnStep, if_neg (by decide), if_pos rfl]
  rfl

theorem rpnStep_dup (env : String → ℝ) (a : ℝ) (s : List ℝ) :
    rpnStep env "dup" (a :: s) = some (a :: a :: s) := by
  rw [rpnStep, if_neg (by decide), if_neg (by decide), if_pos rfl]
  rfl

theorem rpnStep_sqrt (env : String → ℝ) (a : ℝ) (s : List ℝ) :
    rpnStep env "sqrt" (a :: s) = some (Real.sqrt a :: s) := by
  rw [rpnStep, if_neg (by decide), if_neg (by decide), if_neg (by decide), if_pos rfl]
  rfl

theorem rpnStep_abs (env : String → ℝ) (a : ℝ) (s : List ℝ) :
    rpnStep env "abs" (a :: s) = some (|a| :: s) := by
  rw [rpnStep, if_neg (by decide), if_neg (by decide), if_neg (by decide), if_neg (by decide),
    if_pos rfl]
  rfl

theorem eval_rmse_block (env : String → ℝ) (x y : String) (hx : varTok x) (hy : varTok y)
    (s : List ℝ) :
    evalRPN env [x, y, "-", "dup", "*", "sqrt"] s = some (|env x - env y| :: s) := by
  have h1 := rpnStep_var env x s hx
  have h2 := rpnStep_var env y (env x :: s) hy
  have h3 := rpnStep_sub env (env y) (env x) s
  have h4 := rpnStep_dup env (env x - env y) s
  have h5 := rpnStep_mul env (env x - env y) (env x - env y) s
  have h6 := rpnStep_sqrt env ((env x - env y) * (env x - env y)) s
  simp only [evalRPN, h1, h2, h3, h4, h5, h6, Real.sqrt_mul_self_eq_abs]

theorem eval_mae_block (env : String → ℝ) (x y : String) (hx : varTok x) (hy : varTok y)
    (s : List ℝ) :
    evalRPN env [x, y, "-", "abs"] s = some (|env x - env y| :: s) := by
  have h1 := rpnStep_var env x s hx
  have h2 := rpnStep_var env y (env x :: s) hy
  have h3 := rpnStep_sub env (env y) (env x) s
  have h4 := rpnStep_abs env (env x - env y) s
  simp only [evalRPN, h1, h2, h3, h4]

theorem eval_rmse_flatMap (env : String → ℝ) (pairs : List (String × String))
    (h : ∀ p ∈ pairs, varTok p.1 ∧ varTok p.2) (s : List ℝ) :
    evalRPN env (pairs.flatMap (fun ab => [ab.1, ab.2, "-", "dup", "*", "sqrt"])) s =
      some ((pairs.map (fun ab => |env ab.1 - env ab.2|)).reverse ++ s) := by
  induction pairs generalizing s with
  | nil => rfl
  | cons p ps ih =>
    have hp := h p (List.mem_cons_self _ _)
    rw [List.flatMap_cons, evalRPN_append, eval_rmse_block env p.1 p.2 hp.1 hp.2 s,
      Option.some_bind, ih (fun q hq => h q (List.mem_cons_of_mem _ hq))]
    simp

theorem eval_mae_flatMap (env : String → ℝ) (pairs : List (String × String))
    (h : ∀ p ∈ pairs, varTok p.1 ∧ varTok p.2) (s : List ℝ) :
    evalRPN env (pairs.flatMap (fun ab => [ab.1, ab.2, "-", "abs"])) s =
      some ((pairs.map (fun ab => |env ab.1 - env ab.2|)).reverse ++ s) := by
  induction pairs generalizing s with
  | nil => rfl
  | cons p ps ih =>
    have hp := h p (List.mem_cons_self _ _)
    rw [List.flatMap_cons, evalRPN_append, eval_mae_block env p.1 p.2 hp.1 hp.2 s,
      Option.some_bind, ih (fun q hq => h q (List.mem_cons_of_mem _ hq))]
    simp

/-- Claim C2: for every pair of equal-length plane-variable ranges inside
the catalog, rmse emits per-pair fragments [a, b, SUB, DUP, MUL, SQRT] and
mae emits [a, b, SUB, ABS], both fold with MAX repeated (pair_count - 1)
times, and under exact real-number postfix evaluation the two builders
produce the same result for every assignment of sample values, since
sqrt((a-b) squared) equals abs(a-b). -/
theorem claim_C2_rmse_mae (pa pb : ExprVars) (hlen : pa.len = pb.len)
    (ha : pa.stop ≤ 26) (hb : pb.stop ≤ 26) :
    ExprOp.rmse pa (some pb) =
      Except.ok (((pa.vars.zip pb.vars).map (fun ab => rmseTerm ab.1 ab.2)) ++
        [Frag.node (List.replicate ((pa.vars.zip pb.vars).length - 1)
          (Frag.leaf (Leaf.str "max")))]) ∧
    ExprOp.mae pa (some pb) =
      Except.ok (((pa.vars.zip pb.vars).map (fun ab => maeTerm ab.1 ab.2)) ++
        [Frag.node (List.replicate ((pa.vars.zip pb.vars).length - 1)
          (Frag.leaf (Leaf.str "max")))]) ∧
    fragsTokens (((pa.vars.zip pb.vars).map (fun ab => rmseTerm ab.1 ab.2)) ++
        [Frag.node (List.replicate ((pa.vars.zip pb.vars).length - 1)
          (Frag.leaf (Leaf.str "max")))]) =
      (pa.vars.zip pb.vars).flatMap (fun ab => [ab.1, ab.2, "-", "dup", "*", "sqrt"]) ++
        List.replicate ((pa.vars.zip pb.vars).length - 1) "max" ∧
    fragsTokens (((pa.vars.zip pb.vars).map (fun ab => maeTerm ab.1 ab.2)) ++
        [Frag.node (List.replicate ((pa.vars.zip pb.vars).length - 1)
          (Frag.leaf (Leaf.str "max")))]) =
      (pa.vars.zip pb.vars).flatMap (fun ab => [ab.1, ab.2, "-", "abs"]) ++
        List.replicate ((pa.vars.zip pb.vars).length - 1) "max" ∧
    (∀ env : String → ℝ,
      evalRPN env (fragsTokens (((pa.vars.zip pb.vars).map
          (fun ab => rmseTerm ab.1 ab.2)) ++
        [Frag.node (List.replicate ((pa.vars.zip pb.vars).length - 1)
          (Frag.leaf (Leaf.str "max")))])) [] =
      evalRPN env (fragsTokens (((pa.vars.zip pb.vars).map
          (fun ab => maeTerm ab.1 ab.2)) ++
        [Frag.node (List.replicate ((pa.vars.zip pb.vars).length - 1)
          (Frag.leaf (Leaf.str "max")))])) []) := by
  have hclean : ∀ p ∈ pa.vars.zip pb.vars, cleanVar p.1 ∧ cleanVar p.2 := by
    intro p hp
    have hm := List.of_mem_zip hp
    exact ⟨exprVars_clean pa ha p.1 hm.1, exprVars_clean pb hb p.2 hm.2⟩
  have hvar : ∀ p ∈ pa.vars.zip pb.vars, varTok p.1 ∧ varTok p.2 :=
    fun p hp => ⟨(hclean p hp).1.2.2, (hclean p hp).2.2.2⟩
  have htoks1 := tokens_rmse (pa.vars.zip pb.vars) hclean
  have htoks2 := tokens_mae (pa.vars.zip pb.vars) hclean
  refine ⟨?_, ?_, ?_, ?_, ?_⟩
  · simp [ExprOp.rmse, ExprOp._parse_planes, hlen]
  · simp [ExprOp.mae, ExprOp._parse_planes, hlen]
  · rw [fragsTokens_append, htoks1, fragsTokens_maxfold]
  · rw [fragsTokens_append, htoks2, fragsTokens_maxfold]
  · intro env
    rw [fragsTokens_append, fragsTokens_append, htoks1, htoks2, fragsTokens_maxfold,
      evalRPN_append, evalRPN_append,
      eval_rmse_flatMap env (pa.vars.zip pb.vars) hvar [],
      eval_mae_flatMap env (pa.vars.zip pb.vars) hvar []]

/-- Claim C2 witness: the three-plane ranges x,y,z and a,b,c instantiate
the structural and evaluation facts, the evaluation compared at the
all-zero sample assignment. -/
theorem claim_C2_rmse_mae_witness :
    ExprOp.rmse (ExprVars.mk 0 3) (some (ExprVars.mk 3 6)) =
      Except.ok ((((ExprVars.mk 0 3).vars.zip (ExprVars.mk 3 6).vars).map
          (fun ab => rmseTerm ab.1 ab.2)) ++
        [Frag.node (List.replicate
          ((((ExprVars.mk 0 3).vars.zip (ExprVars.mk 3 6).vars)).length - 1)
          (Frag.leaf (Leaf.str "max")))]) ∧
    evalRPN (fun _ => 0) (fragsTokens ((((ExprVars.mk 0 3).vars.zip
          (ExprVars.mk 3 6).vars).map (fun ab => rmseTerm ab.1 ab.2)) ++
        [Frag.node (List.replicate
          ((((ExprVars.mk 0 3).vars.zip (ExprVars.mk 3 6).vars)).length - 1)
          (Frag.leaf (Leaf.str "max")))])) [] =
      evalRPN (fun _ => 0) (fragsTokens ((((ExprVars.mk 0 3).vars.zip
          (ExprVars.mk 3 6).vars).map (fun ab => maeTerm ab.1 ab.2)) ++
        [Frag.node (List.replicate
          ((((ExprVars.mk 0 3).vars.zip (ExprVars.mk 3 6).vars)).length - 1)
          (Frag.leaf (Leaf.str "max")))])) [] := by
  have h := claim_C2_rmse_mae (ExprVars.mk 0 3) (ExprVars.mk 3 6)
    (by decide) (by decide) (by decide)
  exact ⟨h.1, h.2.2.2.2 (fun _ => 0)⟩

end VSExpr
